import Mathlib

/-!
Verification of the qa-read tabular ingestion library.

Shallow embedding of `src/lib.rs` and `src/dtconv.rs`: the type-alias
resolver (`DT_CONV_MAP`), the schema builder (`Read::schema`), the cell
caster (`cast_excel_type_to_polars_type`), the row-to-column transposer
loops of the three spreadsheet readers, and the frame-assembly loops.

Modelling conventions:
* Rust panics (`panic!`, `.unwrap()` on `None`, `Vec` index out of bounds)
  are modelled as distinguished `ReadErr` outcomes, since a shallow
  embedding cannot abort a process; each constructor documents which
  abort it stands for.
* `i64` payloads are embedded as `Int`; a Rust `as` narrowing cast is the
  mathematical reduction modulo `2^w` into the target's representative
  range (`wrapU` / `wrapS` below), and an `i64 as f32/f64` cast rounds to
  the nearest representable value, ties to even (`roundF` below, per the
  Rust reference's int-to-float cast semantics; every such result is an
  integer, so it is embedded exactly as `Int`).
* The external engines (calamine workbook access, polars CSV/lazy-frame
  machinery) are black boxes per the spec's scope: a source is a
  `List (List Data)` of raw rows, and the polars `Schema` ordered map is
  embedded as an association list with polars' insert-or-update semantics.
* A calamine `Data::DateTime` payload is embedded at the engine boundary
  as `Option Int`: the calendar date the engine derives from it
  (`as_datetime().map(|v| v.date())`, then `to_epoch_days`), or `none`
  when no date can be derived.
-/

set_option autoImplicit false

universe u v

namespace QaRead

/-- The polars scalar type tags reachable from `DT_CONV_MAP` in
`src/dtconv.rs` (`DataType::Null` is the "ignored column" marker). -/
inductive DataType where
  | Null
  | Boolean
  | UInt8 | UInt16 | UInt32 | UInt64 | UInt128
  | Int8 | Int16 | Int32 | Int64 | Int128
  | Float32 | Float64
  | String
  | Date
  deriving DecidableEq, Repr

/-- The calamine raw-cell union (`calamine::Data`). `Int` carries the
`i64` payload; `Float` carries the engine's `f64` payload (only integral
doubles appear in any property below, embedded by their exact value);
`DateTime` carries the derivable calendar date as epoch days, if any
(see the module conventions); `DateTimeIso` and `DurationIso` are the
variants the caster has no rule for. -/
inductive Data where
  | Empty
  | Int (i : Int)
  | Float (f : Int)
  | String (s : String)
  | Bool (b : Bool)
  | DateTime (d : Option Int)
  | Error (e : String)
  | DateTimeIso (s : String)
  | DurationIso (s : String)
  deriving DecidableEq, Repr

/-- The polars `AnyValue` scalars produced by the caster. Unsigned
payloads are `Int`s in `[0, 2^w)`, signed payloads `Int`s in
`[-2^(w-1), 2^(w-1))`; float payloads are the exact (integral) value of
the double (see the module conventions). -/
inductive AnyValue where
  | Null
  | Boolean (b : Bool)
  | UInt8 (v : Int) | UInt16 (v : Int) | UInt32 (v : Int)
  | UInt64 (v : Int) | UInt128 (v : Int)
  | Int8 (v : Int) | Int16 (v : Int) | Int32 (v : Int)
  | Int64 (v : Int) | Int128 (v : Int)
  | Float32 (v : Int) | Float64 (v : Int)
  | StringOwned (s : String)
  | Date (days : Int)
  deriving DecidableEq, Repr

/-- The static alias table `DT_CONV_MAP` of `src/dtconv.rs`, as its
lookup function: exact, case-sensitive match over the listed spellings,
`none` for anything else. -/
def DT_CONV_MAP (s : String) : Option DataType :=
  match s with
  | "null" | "Null" | "NULL" | "x" | "X" | "remove" | "Remove" => some .Null
  | "bool" | "Bool" | "Boolean" | "boolean" | "BOOL" | "BOOLEAN" => some .Boolean
  | "u8" | "U8" | "uint8" | "UInt8" | "UINT8" | "bit" | "Bit" | "BIT" => some .UInt8
  | "u16" | "U16" | "uint16" | "UInt16" | "UINT16" => some .UInt16
  | "u32" | "U32" | "uint32" | "UInt32" | "UINT32"
  | "Int" | "INT" | "integer" | "Integer" | "INTEGER" => some .UInt32
  | "u64" | "U64" | "uint64" | "UInt64" | "UINT64" => some .UInt64
  | "u128" | "U128" | "uint128" | "UInt128" | "UINT128" => some .UInt128
  | "i8" | "I8" | "int8" | "Int8" | "INT8" | "tinyint" | "TinyInt" => some .Int8
  | "i16" | "I16" | "int16" | "Int16" | "INT16" => some .Int16
  | "i32" | "I32" | "int32" | "Int32" | "INT32" => some .Int32
  | "i64" | "I64" | "int64" | "Int64" | "INT64" => some .Int64
  | "i128" | "I128" | "int128" | "Int128" | "INT128" => some .Int128
  | "f32" | "F32" | "float32" | "Float32" | "FLOAT32" => some .Float32
  | "f64" | "F64" | "float64" | "Float64" | "FLOAT64"
  | "float" | "Float" | "FLOAT" | "decimal" | "Decimal" | "DECIMAL" => some .Float64
  | "str" | "Str" | "string" | "String" | "STRING" | "TEXT" => some .String
  | "date" | "Date" | "DATE" => some .Date
  | _ => none

/-- Rust `i64 as uN` narrowing: reduce modulo `2^w` into `[0, 2^w)`. -/
def wrapU (w : Nat) (i : Int) : Int := i % (2 ^ w : Nat)

/-- Rust `i64 as iN` narrowing: reduce modulo `2^w` into
`[-2^(w-1), 2^(w-1))` (balanced remainder). -/
def wrapS (w : Nat) (i : Int) : Int := Int.bmod i (2 ^ w)

/-- Binary digit count, fuel-driven so the kernel can evaluate it:
`bitLenAux fuel n` is `⌊log2 n⌋ + 1` for `1 ≤ n ≤ 2 ^ fuel` and `0` for
`n = 0`. -/
def bitLenAux : Nat → Nat → Nat
  | 0, _ => 0
  | fuel + 1, n => if n = 0 then 0 else bitLenAux fuel (n / 2) + 1

/-- Binary digit count of a natural number (`n` itself is always enough
fuel). -/
def bitLen (n : Nat) : Nat := bitLenAux n n

/-- Round a natural number to `prec` significant bits, nearest value,
ties to even: the significand rounding performed by a Rust int-to-float
`as` cast (`prec = 24` for `f32`, `53` for `f64`). -/
def roundSig (prec : Nat) (n : Nat) : Nat :=
  if n < 2 ^ prec then n
  else
    let k := bitLen n - prec
    let q := n / 2 ^ k
    let r := n % 2 ^ k
    let half := 2 ^ (k - 1)
    let q' := if half < r ∨ (r = half ∧ q % 2 = 1) then q + 1 else q
    q' * 2 ^ k

/-- Rust `i64 as f32/f64` cast semantics on the embedded integers:
round the magnitude to the float's significand precision, nearest, ties
to even (no `i64` reaches the float's overflow range). -/
def roundF (prec : Nat) (i : Int) : Int :=
  Int.sign i * roundSig prec i.natAbs

/-- Failure of `cast_excel_type_to_polars_type`. `panicIntMismatch`
models the `panic!("Mismatched data type for Int value: ...")` abort;
`unsupportedCellVariant` models the `Err(...)` returned for the raw-cell
variants the caster has no rule for. -/
inductive CastErr where
  | panicIntMismatch (dtype : DataType)
  | unsupportedCellVariant
  deriving DecidableEq, Repr

/-- `cast_excel_type_to_polars_type` of `src/dtconv.rs`: convert one raw
cell against the target type and append the result to the column buffer.
The buffer mutation is embedded by returning the extended buffer. -/
def cast_excel_type_to_polars_type (value : Data) (dtype : DataType)
    (column : List AnyValue) : Except CastErr (List AnyValue) :=
  match value with
  | .Empty => .ok (column ++ [.Null])
  | .Int i =>
    match dtype with
    | .UInt8 => .ok (column ++ [.UInt8 (wrapU 8 i)])
    | .UInt16 => .ok (column ++ [.UInt16 (wrapU 16 i)])
    | .UInt32 => .ok (column ++ [.UInt32 (wrapU 32 i)])
    | .UInt64 => .ok (column ++ [.UInt64 (wrapU 64 i)])
    | .UInt128 => .ok (column ++ [.UInt128 (wrapU 128 i)])
    | .Int8 => .ok (column ++ [.Int8 (wrapS 8 i)])
    | .Int16 => .ok (column ++ [.Int16 (wrapS 16 i)])
    | .Int32 => .ok (column ++ [.Int32 (wrapS 32 i)])
    | .Int64 => .ok (column ++ [.Int64 (wrapS 64 i)])
    | .Int128 => .ok (column ++ [.Int128 (wrapS 128 i)])
    | .Boolean => .ok (column ++ [.Boolean (decide (i ≠ 0))])
    | .Float32 => .ok (column ++ [.Float32 (roundF 24 i)])
    | .Float64 => .ok (column ++ [.Float64 (roundF 53 i)])
    | val => .error (.panicIntMismatch val)
  | .Float f => .ok (column ++ [.Float64 f])
  | .String s => .ok (column ++ [.StringOwned s])
  | .Bool b => .ok (column ++ [.Boolean b])
  | .DateTime d =>
    match d with
    | some date => .ok (column ++ [.Date date])
    | none => .ok (column ++ [.Null])
  | .Error _ => .ok (column ++ [.Null])
  | .DateTimeIso _ => .error .unsupportedCellVariant
  | .DurationIso _ => .error .unsupportedCellVariant

/-- Failure (or modelled abort) of a read in `src/lib.rs`.
`emptySchema` is the `Err("Read failed due to empty provided schema")`
return; `panicUnknownAlias` models the `.unwrap()` panic when
`DT_CONV_MAP.get` misses; `panicIndex` models a `Vec` index-out-of-bounds
panic (`columns[column]`); `panicHeaderMismatch` models the
`panic!("Pivot table header ... does not match ...")` abort; `castErr`
propagates a caster failure through the `?` operator. -/
inductive ReadErr where
  | emptySchema
  | panicUnknownAlias (name aliasStr : String)
  | panicIndex
  | panicHeaderMismatch (expected : String) (got : Data)
  | castErr (e : CastErr)
  deriving DecidableEq, Repr

/-- A schema is the polars ordered name-to-dtype map, embedded as an
association list in insertion order. -/
abbrev SchemaL := List (String × DataType)

/-- Polars `Schema::insert`: if the name is already present, update its
dtype in place (position kept); otherwise append the entry. -/
def schemaInsert (s : SchemaL) (name : String) (dt : DataType) : SchemaL :=
  if s.any (fun p => p.1 = name) then
    s.map (fun p => if p.1 = name then (name, dt) else p)
  else s ++ [(name, dt)]

/-- The entry loop of `Read::schema`: resolve each alias through
`DT_CONV_MAP` and insert into the accumulating schema, aborting
(modelled `panicUnknownAlias`) at the first unknown alias. -/
def buildSchemaEntries : List (String × String) → SchemaL → Except ReadErr SchemaL
  | [], s => .ok s
  | (name, al) :: rest, s =>
    match DT_CONV_MAP al with
    | some dt => buildSchemaEntries rest (schemaInsert s name dt)
    | none => .error (.panicUnknownAlias name al)

/-- `Read::schema` of `src/lib.rs`: reject an empty raw schema, then
resolve every (name, alias) pair in order. -/
def buildSchema (raw : List (String × String)) : Except ReadErr SchemaL :=
  if raw.isEmpty then .error .emptySchema
  else buildSchemaEntries raw []

/-- One typed output column: name, declared dtype (the `.cast(&dt)`
declaration handed to the frame engine), and its values. -/
structure Column where
  name : String
  dtype : DataType
  values : List AnyValue
  deriving DecidableEq, Repr

/-- The assembled frame: its columns in order. -/
structure Frame where
  columns : List Column
  deriving DecidableEq, Repr

/-- The frame-assembly loop shared by the pivot-table, named-table and
sheet-range readers: zip the schema with the buffers, skip `Null`
(ignored) columns, and declare each remaining buffer as a column cast to
its schema dtype. The external `Series::cast`/`with_column` calls are
the black-box frame engine; they are embedded as tagging the buffer with
its declared name and dtype. -/
def assembleFrame (schema : SchemaL) (columns : List (List AnyValue)) : Frame :=
  ⟨(schema.zip columns).filterMap (fun pc =>
      if pc.1.2 = .Null then none else some ⟨pc.1.1, pc.1.2, pc.2⟩)⟩

/-- One iteration of the transposer loop shared by the named-table and
sheet-range readers (and the data loop of the pivot-table reader): the
`k`-th `cycle_columns.next()` yields `k % schema.length`; an ignored
(`Null`) column is skipped before any buffer access; otherwise the cell
is cast and appended to `columns[column]`, whose out-of-bounds access is
the modelled `panicIndex`. (`schema.get?` misses only for an empty
schema, where the Rust `cycle` iterator is exhausted and
`unwrap_unchecked` is undefined behaviour, also modelled `panicIndex`;
all callers check non-emptiness first.) -/
def processCell (schema : SchemaL) (columns : List (List AnyValue))
    (k : Nat) (cell : Data) : Except ReadErr (List (List AnyValue)) :=
  let column := k % schema.length
  match schema[column]? with
  | none => .error .panicIndex
  | some (_, dtype) =>
    if dtype = .Null then .ok columns
    else
      match columns[column]? with
      | none => .error .panicIndex
      | some buf =>
        match cast_excel_type_to_polars_type cell dtype buf with
        | .ok buf' => .ok (columns.set column buf')
        | .error e => .error (.castErr e)

/-- The nested `for row in rows { for col in row { ... } }` traversal,
flattened: the shared cycling counter `k` advances once per cell. -/
def processCells (schema : SchemaL) :
    List Data → Nat → List (List AnyValue) → Except ReadErr (List (List AnyValue))
  | [], _, columns => .ok columns
  | cell :: rest, k, columns =>
    match processCell schema columns k cell with
    | .ok columns' => processCells schema rest (k + 1) columns'
    | .error e => .error e

/-- The header loop of the pivot-table reader: each header cell consumes
one `cycle_columns.next()` (index `k % schema.length`), must equal the
schema column's name as a text cell (else the modelled
`panicHeaderMismatch`), and pushes one fresh (empty) buffer — of
capacity 0 for ignored columns, 1000 otherwise; capacity is not
observable, so both push `[]`. -/
def processHeaders (schema : SchemaL) :
    List Data → Nat → List (List AnyValue) → Except ReadErr (List (List AnyValue))
  | [], _, columns => .ok columns
  | header :: rest, k, columns =>
    match schema[k % schema.length]? with
    | none => .error .panicIndex
    | some (name, _) =>
      if header = Data.String name then
        processHeaders schema rest (k + 1) (columns ++ [[]])
      else .error (.panicHeaderMismatch name header)

/-- `Read::read` for `Reader<PhantomTableReader>` (named table) in
`src/lib.rs`, from the point where the engine has produced the raw rows:
build the schema, create the columns vector with
`Vec::with_capacity(schema.len())` — which has length 0 —, run every
cell through the transposer, and assemble the frame. -/
def tableRead (raw : List (String × String)) (rows : List (List Data)) :
    Except ReadErr Frame := do
  let schema ← buildSchema raw
  let columns : List (List AnyValue) := []
  let columns ← processCells schema rows.flatten 0 columns
  return assembleFrame schema columns

/-- `Read::read` for `Reader<PhantomSheetRangeReader>` (cell range) in
`src/lib.rs`: its body after row acquisition is line-for-line the
named-table reader's. -/
def sheetRangeRead (raw : List (String × String)) (rows : List (List Data)) :
    Except ReadErr Frame := do
  let schema ← buildSchema raw
  let columns : List (List AnyValue) := []
  let columns ← processCells schema rows.flatten 0 columns
  return assembleFrame schema columns

/-- `Read::read` for `Reader<PhantomPivotTableReader>` in `src/lib.rs`,
from the point where the engine has produced the raw rows. With no rows
at all it returns `LazyFrame::default().with_columns(...)` declaring
every schema column (ignored ones included) cast to its dtype with no
rows; otherwise the first row is validated as the header (pushing one
buffer per header cell), the remaining rows stream through the shared
transposer with the cycle counter continuing where the header loop left
it, and the frame is assembled. -/
def pivotRead (raw : List (String × String)) (rows : List (List Data)) :
    Except ReadErr Frame := do
  let schema ← buildSchema raw
  match rows with
  | [] => return ⟨schema.map (fun p => ⟨p.1, p.2, []⟩)⟩
  | headers :: dataRows => do
    let columns ← processHeaders schema headers 0 []
    let columns ← processCells schema dataRows.flatten headers.length columns
    return assembleFrame schema columns

/-- The column selection of `Read::read` for `Reader<PhantomTxtReader>`
(delimited text) in `src/lib.rs`: the CSV engine is handed the full
schema, and the resulting frame is projected onto the columns whose
dtype is not `Null`, in schema order (the `ignore_columns` filter-map
and the final `select`). -/
def txtSelectedColumns (schema : SchemaL) : List String :=
  schema.filterMap (fun p => if p.2 = .Null then none else some p.1)

/-! ## Reduction lemmas for the `Except` monad -/

@[simp] theorem exceptBind_ok {ε : Type u} {α β : Type v} (a : α)
    (f : α → Except ε β) : (Except.ok a >>= f) = f a := rfl

@[simp] theorem exceptBind_error {ε : Type u} {α β : Type v} (e : ε)
    (f : α → Except ε β) :
    ((Except.error e : Except ε α) >>= f) = Except.error e := rfl

/-! ## Arithmetic facts about the narrowing and rounding helpers -/

theorem wrapU_spec (w : Nat) (i : Int) :
    0 ≤ wrapU w i ∧ wrapU w i < 2 ^ w ∧ wrapU w i % 2 ^ w = i % 2 ^ w := by
  have h2 : ((2 ^ w : Nat) : Int) = 2 ^ w := by push_cast; ring
  have hpos : (0 : Int) < 2 ^ w := by positivity
  refine ⟨?_, ?_, ?_⟩
  · simpa [wrapU, h2] using Int.emod_nonneg i (ne_of_gt hpos)
  · simpa [wrapU, h2] using Int.emod_lt_of_pos i hpos
  · simp [wrapU, h2, Int.emod_emod_of_dvd]

theorem wrapS_spec (w : Nat) (hw : 1 ≤ w) (i : Int) :
    -(2 ^ (w - 1)) ≤ wrapS w i ∧ wrapS w i < 2 ^ (w - 1) ∧
      wrapS w i % 2 ^ w = i % 2 ^ w := by
  have hm : 0 < 2 ^ w := Nat.two_pow_pos w
  have hle := Int.le_bmod (x := i) (m := 2 ^ w) hm
  have hlt := Int.bmod_lt (x := i) (m := 2 ^ w) hm
  have hmod := Int.bmod_emod (x := i) (m := 2 ^ w)
  have hcast : ((2 ^ w : Nat) : Int) = 2 ^ (w - 1) * 2 := by
    push_cast
    rw [← pow_succ]
    congr 1
    omega
  have hgoal2 : (2 : Int) ^ w = 2 ^ (w - 1) * 2 := by
    rw [← pow_succ]
    congr 1
    omega
  rw [hcast] at hle hlt hmod
  simp only [wrapS]
  rw [hgoal2]
  refine ⟨by omega, by omega, by omega⟩

theorem roundSig_of_lt {prec n : Nat} (h : n < 2 ^ prec) : roundSig prec n = n := by
  simp [roundSig, h]

theorem roundF_exact {prec : Nat} {i : Int} (h : i.natAbs < 2 ^ prec) :
    roundF prec i = i := by
  rw [roundF, roundSig_of_lt h, Int.sign_mul_natAbs]

/-! ## Claim theorems (first group) -/

/-- Claim C8: For every target type, the cell caster appends null and
returns success when the raw cell is `Empty`, an engine-reported
`Error`, or a `DateTime` from which no calendar date can be derived; on
a `DateTime` that does yield a date it appends the day-count since the
epoch. (The match is on the cell variant before the target type ever
matters, so this holds for all sixteen targets at once.) -/
theorem caster_recoverable_cells_append_null (dtype : DataType)
    (col : List AnyValue) (e : String) (d : Int) :
    cast_excel_type_to_polars_type .Empty dtype col = .ok (col ++ [.Null]) ∧
    cast_excel_type_to_polars_type (.Error e) dtype col = .ok (col ++ [.Null]) ∧
    cast_excel_type_to_polars_type (.DateTime none) dtype col = .ok (col ++ [.Null]) ∧
    cast_excel_type_to_polars_type (.DateTime (some d)) dtype col =
      .ok (col ++ [.Date d]) :=
  ⟨rfl, rfl, rfl, rfl⟩

/-- Claim C4, counterexample: The cast of `Integer (2^53 + 1)` to a
`Float64` target appends the nearest representable double, `2^53`, not
the exact value: the Rust `i64 as f64` conversion rounds, so "appends
the exact float conversion" fails at this input. -/
theorem caster_int_to_float64_not_exact :
    cast_excel_type_to_polars_type (.Int 9007199254740993) .Float64 [] =
      .ok [.Float64 9007199254740992] ∧
    (9007199254740992 : Int) ≠ 9007199254740993 :=
  ⟨rfl, by decide⟩

/-- Claim C4, amended: For every 64-bit `Integer` raw cell value `i`, the
caster appends `i` reduced modulo `2^w` in the target's representation
when the target is an unsigned (`[0, 2^w)`) or signed
(`[-2^(w-1), 2^(w-1))`, congruent to `i` modulo `2^w`) integer of width
`w`; appends the boolean `i ≠ 0` when the target is `Boolean`; and when
the target is `Float32` or `Float64` appends the conversion rounded to
the nearest representable value (ties to even), which is exact whenever
`|i| < 2^24` resp. `|i| < 2^53`. -/
theorem caster_int_narrowing_semantics (i : Int) (col : List AnyValue) :
    (cast_excel_type_to_polars_type (.Int i) .UInt8 col =
        .ok (col ++ [.UInt8 (wrapU 8 i)]) ∧
      cast_excel_type_to_polars_type (.Int i) .UInt16 col =
        .ok (col ++ [.UInt16 (wrapU 16 i)]) ∧
      cast_excel_type_to_polars_type (.Int i) .UInt32 col =
        .ok (col ++ [.UInt32 (wrapU 32 i)]) ∧
      cast_excel_type_to_polars_type (.Int i) .UInt64 col =
        .ok (col ++ [.UInt64 (wrapU 64 i)]) ∧
      cast_excel_type_to_polars_type (.Int i) .UInt128 col =
        .ok (col ++ [.UInt128 (wrapU 128 i)])) ∧
    (cast_excel_type_to_polars_type (.Int i) .Int8 col =
        .ok (col ++ [.Int8 (wrapS 8 i)]) ∧
      cast_excel_type_to_polars_type (.Int i) .Int16 col =
        .ok (col ++ [.Int16 (wrapS 16 i)]) ∧
      cast_excel_type_to_polars_type (.Int i) .Int32 col =
        .ok (col ++ [.Int32 (wrapS 32 i)]) ∧
      cast_excel_type_to_polars_type (.Int i) .Int64 col =
        .ok (col ++ [.Int64 (wrapS 64 i)]) ∧
      cast_excel_type_to_polars_type (.Int i) .Int128 col =
        .ok (col ++ [.Int128 (wrapS 128 i)])) ∧
    (cast_excel_type_to_polars_type (.Int i) .Boolean col =
        .ok (col ++ [.Boolean (decide (i ≠ 0))]) ∧
      cast_excel_type_to_polars_type (.Int i) .Float32 col =
        .ok (col ++ [.Float32 (roundF 24 i)]) ∧
      cast_excel_type_to_polars_type (.Int i) .Float64 col =
        .ok (col ++ [.Float64 (roundF 53 i)])) ∧
    (∀ w, 0 ≤ wrapU w i ∧ wrapU w i < 2 ^ w ∧ wrapU w i % 2 ^ w = i % 2 ^ w) ∧
    (∀ w, 1 ≤ w → -(2 ^ (w - 1)) ≤ wrapS w i ∧ wrapS w i < 2 ^ (w - 1) ∧
        wrapS w i % 2 ^ w = i % 2 ^ w) ∧
    (∀ prec, i.natAbs < 2 ^ prec → roundF prec i = i) :=
  ⟨⟨rfl, rfl, rfl, rfl, rfl⟩, ⟨rfl, rfl, rfl, rfl, rfl⟩, ⟨rfl, rfl, rfl⟩,
    fun w => wrapU_spec w i, fun w hw => wrapS_spec w hw i,
    fun _ h => roundF_exact h⟩

/-- Claim C4, witness: The amended theorem applied at `i = 300` with an
empty buffer: the `UInt8` target receives `44 = 300 mod 256`, the
hypothesis of the signed-width part is discharged at `w = 8`, and the
`Float64` exactness hypothesis at `|300| < 2^53`. -/
theorem caster_int_narrowing_semantics_witness :
    (1 ≤ 8 ∧ (-(2 ^ (8 - 1) : Int) ≤ wrapS 8 300 ∧ wrapS 8 300 < 2 ^ (8 - 1) ∧
        wrapS 8 300 % 2 ^ 8 = 300 % 2 ^ 8)) ∧
    ((300 : Int).natAbs < 2 ^ 53 ∧ roundF 53 300 = 300) ∧
    cast_excel_type_to_polars_type (.Int 300) .UInt8 [] = .ok [.UInt8 44] := by
  have h := caster_int_narrowing_semantics 300 []
  refine ⟨⟨by decide, h.2.2.2.2.1 8 (by decide)⟩,
    ⟨by decide, h.2.2.2.2.2 53 (by decide)⟩, ?_⟩
  have h8 := h.1.1
  rw [h8]
  rfl

/-! ## Transposer lemmas -/

theorem processCell_ignored (schema : SchemaL) (columns : List (List AnyValue))
    (k : Nat) (cell : Data) (name : String)
    (hs : schema[k % schema.length]? = some (name, .Null)) :
    processCell schema columns k cell = .ok columns := by
  simp [processCell, hs]

theorem processCell_routes (schema : SchemaL) (columns : List (List AnyValue))
    (k : Nat) (cell : Data) (name : String) (dt : DataType) (buf : List AnyValue)
    (hs : schema[k % schema.length]? = some (name, dt)) (hdt : dt ≠ .Null)
    (hb : columns[k % schema.length]? = some buf) :
    processCell schema columns k cell =
      match cast_excel_type_to_polars_type cell dt buf with
      | .ok buf' => .ok (columns.set (k % schema.length) buf')
      | .error e => .error (.castErr e) := by
  cases hc : cast_excel_type_to_polars_type cell dt buf <;>
    simp [processCell, hs, hdt, hb, hc]

theorem processCell_preserves_ignored_step (schema : SchemaL)
    (cs cs0 : List (List AnyValue)) (k : Nat) (cell : Data)
    (hp : processCell schema cs k cell = .ok cs0)
    (j : Nat) (name : String) (hj : schema[j]? = some (name, .Null)) :
    cs0[j]? = cs[j]? := by
  simp only [processCell] at hp
  split at hp
  · cases hp
  · rename_i nm dt hs
    by_cases hdt : dt = DataType.Null
    · rw [if_pos hdt] at hp
      cases hp
      rfl
    · rw [if_neg hdt] at hp
      split at hp
      · cases hp
      · rename_i buf hb
        split at hp
        · rename_i buf' hc
          cases hp
          have hne : k % schema.length ≠ j := by
            intro he
            rw [he] at hs
            rw [hs] at hj
            injection hj with h1
            injection h1 with h2 h3
            exact hdt h3
          exact List.getElem?_set_ne hne
        · cases hp

theorem processCells_preserves_ignored (schema : SchemaL) (cells : List Data) :
    ∀ (k : Nat) (columns columns' : List (List AnyValue)),
      processCells schema cells k columns = .ok columns' →
      ∀ (j : Nat) (name : String),
        schema[j]? = some (name, .Null) → columns'[j]? = columns[j]? := by
  induction cells with
  | nil =>
    intro k cs cs' h j name hj
    simp only [processCells] at h
    cases h
    rfl
  | cons cell rest ih =>
    intro k cs cs' h j name hj
    simp only [processCells] at h
    cases hp : processCell schema cs k cell with
    | error e => rw [hp] at h; cases h
    | ok cs0 =>
      rw [hp] at h
      rw [ih (k + 1) cs0 cs' h j name hj]
      exact processCell_preserves_ignored_step schema cs cs0 k cell hp j name hj

/-- Claim C3: For every schema with column count `N ≥ 1`: the transposer
routes the cell at flat position `k` to column `k mod N` (the buffer
access and update happen at index `k mod N`); a cell routed to a column
whose resolved type is Ignored (`Null`) is discarded without invoking
the caster (the step returns the columns unchanged even for cells whose
cast would fail); and over any cell stream whatsoever, an Ignored
column's buffer is exactly what it was at the start. The rectangularity
assumption of the claim is not even needed for these facts. -/
theorem transposer_routes_mod_and_skips_ignored (schema : SchemaL)
    (hN : 1 ≤ schema.length) :
    (∀ (columns : List (List AnyValue)) (k : Nat) (cell : Data) (name : String)
        (dt : DataType) (buf : List AnyValue),
        schema[k % schema.length]? = some (name, dt) → dt ≠ .Null →
        columns[k % schema.length]? = some buf →
        processCell schema columns k cell =
          match cast_excel_type_to_polars_type cell dt buf with
          | .ok buf' => .ok (columns.set (k % schema.length) buf')
          | .error e => .error (.castErr e)) ∧
    (∀ (columns : List (List AnyValue)) (k : Nat) (cell : Data) (name : String),
        schema[k % schema.length]? = some (name, .Null) →
        processCell schema columns k cell = .ok columns) ∧
    (∀ (cells : List Data) (k : Nat) (columns columns' : List (List AnyValue)),
        processCells schema cells k columns = .ok columns' →
        ∀ (j : Nat) (name : String),
          schema[j]? = some (name, .Null) → columns'[j]? = columns[j]?) :=
  ⟨fun columns k cell name dt buf hs hdt hb =>
      processCell_routes schema columns k cell name dt buf hs hdt hb,
    fun columns k cell name hs => processCell_ignored schema columns k cell name hs,
    fun cells k columns columns' h =>
      processCells_preserves_ignored schema cells k columns columns' h⟩

/-- Claim C3, witness: The schema `[(a, u8), (b, u16), (c, Ignored)]` has
`N = 3`; the cell at flat position 4 is routed to column `4 mod 3 = 1`,
the cell at flat position 5 hits the Ignored column 2 and is discarded,
and over the 3-cell stream of one full row the Ignored column's buffer
stays empty. -/
theorem transposer_witness :
    processCell [("a", .UInt8), ("b", .UInt16), ("c", .Null)] [[], [], []] 4 (.Int 5) =
      .ok [[], [.UInt16 (wrapU 16 5)], []] ∧
    processCell [("a", .UInt8), ("b", .UInt16), ("c", .Null)] [[], [], []] 5 (.Int 9) =
      .ok [[], [], []] ∧
    ([[.UInt8 (wrapU 8 1)], [.UInt16 (wrapU 16 2)], []] :
        List (List AnyValue))[2]? = ([[], [], []] : List (List AnyValue))[2]? := by
  have h := transposer_routes_mod_and_skips_ignored
    [("a", .UInt8), ("b", .UInt16), ("c", .Null)] (by decide)
  refine ⟨?_, ?_, ?_⟩
  · have h1 := h.1 [[], [], []] 4 (.Int 5) "b" .UInt16 [] rfl (by decide) rfl
    simpa using h1
  · exact h.2.1 [[], [], []] 5 (.Int 9) "c" rfl
  · refine h.2.2 [.Int 1, .Int 2, .Int 3] 0 [[], [], []]
      [[.UInt8 (wrapU 8 1)], [.UInt16 (wrapU 16 2)], []] ?_ 2 "c" rfl
    rfl

/-! ## Pivot-table header lemmas -/

theorem processHeaders_mismatch (schema : SchemaL) (headers : List Data) :
    ∀ (k : Nat) (columns : List (List AnyValue)),
      (∃ j, ∃ (hj : j < headers.length), ∃ (name : String) (dt : DataType),
          schema[(k + j) % schema.length]? = some (name, dt) ∧
          headers[j] ≠ Data.String name) →
      ∃ (name : String) (got : Data),
        processHeaders schema headers k columns =
          .error (.panicHeaderMismatch name got) ∧ got ≠ Data.String name := by
  induction headers with
  | nil =>
    intro k columns h
    obtain ⟨j, hj, -⟩ := h
    simp at hj
  | cons h0 rest ih =>
    intro k columns h
    obtain ⟨j, hj, name, dt, hs, hne⟩ := h
    have hNpos : 0 < schema.length := by
      rcases Nat.eq_zero_or_pos schema.length with h0l | h
      · rw [List.length_eq_zero.mp h0l] at hs
        simp at hs
      · exact h
    have hk0 : k % schema.length < schema.length := Nat.mod_lt _ hNpos
    obtain ⟨p0, hp0⟩ : ∃ p, schema[k % schema.length]? = some p :=
      ⟨_, List.getElem?_eq_getElem hk0⟩
    obtain ⟨n0, d0⟩ := p0
    by_cases hm0 : h0 = Data.String n0
    · cases j with
      | zero =>
        exfalso
        rw [Nat.add_zero] at hs
        rw [hp0] at hs
        injection hs with h1
        injection h1 with h2 h3
        exact hne (by simp [hm0, h2])
      | succ j' =>
        have hrec := ih (k + 1) (columns ++ [[]])
          ⟨j', by simpa using hj, name, dt, ?_, ?_⟩
        · obtain ⟨nm, got, heq, hgot⟩ := hrec
          refine ⟨nm, got, ?_, hgot⟩
          simp only [processHeaders, hp0]
          rw [if_pos hm0]
          exact heq
        · have harith : k + 1 + j' = k + (j' + 1) := by omega
          rw [harith]
          exact hs
        · simpa using hne
    · refine ⟨n0, h0, ?_, hm0⟩
      simp only [processHeaders, hp0]
      rw [if_neg hm0]

theorem processHeaders_all_match (schema : SchemaL) (names : List String) :
    ∀ (k : Nat) (columns : List (List AnyValue)),
      (∀ (j : Nat) (hj : j < names.length),
          (schema[(k + j) % schema.length]?).map Prod.fst = some names[j]) →
      processHeaders schema (names.map Data.String) k columns =
        .ok (columns ++ List.replicate names.length []) := by
  induction names with
  | nil =>
    intro k columns _
    simp [processHeaders]
  | cons n0 rest ih =>
    intro k columns hall
    have h0 := hall 0 (by simp)
    rw [Nat.add_zero] at h0
    obtain ⟨p0, hp0, hfst⟩ : ∃ p, schema[k % schema.length]? = some p ∧ p.1 = n0 := by
      cases hq : schema[k % schema.length]? with
      | none => rw [hq] at h0; simp at h0
      | some p =>
        rw [hq] at h0
        simp at h0
        exact ⟨p, rfl, by simpa using h0⟩
    obtain ⟨nn, dd⟩ := p0
    simp only at hfst
    subst hfst
    simp only [List.map_cons, processHeaders, hp0, if_pos rfl]
    rw [ih (k + 1) (columns ++ [[]]) ?_]
    · rw [List.append_assoc]
      congr 1
    · intro j hj
      have := hall (j + 1) (by simpa using hj)
      have harith : k + (j + 1) = k + 1 + j := by omega
      rw [harith] at this
      simpa using this

theorem assembleFrame_replicate (schema : SchemaL) :
    assembleFrame schema (List.replicate schema.length []) =
      ⟨schema.filterMap (fun p =>
          if p.2 = .Null then none else some ⟨p.1, p.2, []⟩)⟩ := by
  unfold assembleFrame
  congr 1
  induction schema with
  | nil => rfl
  | cons p s ih =>
    by_cases hp : p.2 = DataType.Null <;>
      simp [List.replicate_succ, hp, ih]

/-- Claim C6: In the pivot-table-cache reader the first row is consumed as
the header, and each header cell must equal the corresponding schema
column's name as a text cell: if any header cell differs (in particular
any non-text header cell), the read fails with the modelled
header-mismatch panic — a fatal failure, never a silent skip. -/
theorem pivot_header_mismatch_is_fatal (raw : List (String × String))
    (schema : SchemaL) (headers : List Data) (rest : List (List Data))
    (hs : buildSchema raw = .ok schema)
    (hmm : ∃ j, ∃ (hj : j < headers.length), ∃ (name : String) (dt : DataType),
        schema[j % schema.length]? = some (name, dt) ∧
        headers[j] ≠ Data.String name) :
    ∃ (name : String) (got : Data),
      pivotRead raw (headers :: rest) = .error (.panicHeaderMismatch name got) ∧
      got ≠ Data.String name := by
  obtain ⟨name, got, he, hgot⟩ :=
    processHeaders_mismatch schema headers 0 [] (by simpa using hmm)
  refine ⟨name, got, ?_, hgot⟩
  simp [pivotRead, hs, he]

/-- Claim C6, witness: A pivot source whose header row carries the non-text
cell `Integer 5` where the schema expects column name `B` fails with the
modelled header-mismatch panic. -/
theorem pivot_header_mismatch_is_fatal_witness :
    ∃ (name : String) (got : Data),
      pivotRead [("A", "u32"), ("B", "str")] [[.String "A", .Int 5]] =
        .error (.panicHeaderMismatch name got) ∧ got ≠ Data.String name := by
  refine pivot_header_mismatch_is_fatal [("A", "u32"), ("B", "str")]
    [("A", .UInt32), ("B", .String)] [.String "A", .Int 5] [] rfl
    ⟨1, by decide, "B", .String, rfl, by decide⟩

/-- Claim C7: A pivot-table-cache read whose source yields zero data rows
produces a frame with zero rows carrying the declared schema: with no
rows at all, the empty-result branch declares every schema column
(ignored ones included) with its declared name and dtype and no values;
with only a (matching) header row, the frame holds exactly the
non-ignored schema columns, in schema order, each with its declared
name and dtype and zero rows. -/
theorem pivot_zero_data_rows_schema_frame (raw : List (String × String))
    (schema : SchemaL) (hs : buildSchema raw = .ok schema) :
    pivotRead raw [] = .ok ⟨schema.map (fun p => ⟨p.1, p.2, []⟩)⟩ ∧
    pivotRead raw [schema.map (fun p => Data.String p.1)] =
      .ok ⟨schema.filterMap (fun p =>
          if p.2 = .Null then none else some ⟨p.1, p.2, []⟩)⟩ := by
  constructor
  · simp [pivotRead, hs]
  · have hmap : schema.map (fun p => Data.String p.1) =
        (schema.map Prod.fst).map Data.String := by
      simp [List.map_map]
    have hh := processHeaders_all_match schema (schema.map Prod.fst) 0 [] ?_
    · rw [hmap]
      simp only [pivotRead, hs, exceptBind_ok]
      rw [hh]
      simp only [exceptBind_ok, List.flatten_nil, processCells, Except.map_ok,
        List.nil_append, List.length_map]
      rw [assembleFrame_replicate schema]
      rfl
    · intro j hj
      have hjlen : j < schema.length := by simpa using hj
      rw [Nat.zero_add, Nat.mod_eq_of_lt hjlen]
      rw [List.getElem?_eq_getElem hjlen]
      simp

/-- Claim C7, witness: The claim theorem applied to the schema
`[(A, u32), (B, str)]`: the empty source yields the two declared
columns with no rows, and the header-only source yields the same (no
ignored columns here), all dtypes as declared. -/
theorem pivot_zero_data_rows_schema_frame_witness :
    pivotRead [("A", "u32"), ("B", "str")] [] =
      .ok ⟨[⟨"A", .UInt32, []⟩, ⟨"B", .String, []⟩]⟩ ∧
    pivotRead [("A", "u32"), ("B", "str")] [[.String "A", .String "B"]] =
      .ok ⟨[⟨"A", .UInt32, []⟩, ⟨"B", .String, []⟩]⟩ := by
  have h := pivot_zero_data_rows_schema_frame [("A", "u32"), ("B", "str")]
    [("A", .UInt32), ("B", .String)] rfl
  exact ⟨h.1, by simpa using h.2⟩

/-! ## Schema-builder lemmas -/

theorem schemaInsert_mem_names (s : SchemaL) (name : String) (dt : DataType)
    (n : String) :
    n ∈ (schemaInsert s name dt).map Prod.fst ↔
      n = name ∨ n ∈ s.map Prod.fst := by
  unfold schemaInsert
  split
  · rename_i hany
    have hname : name ∈ s.map Prod.fst := by
      simp only [List.any_eq_true, decide_eq_true_eq] at hany
      obtain ⟨p, hp, hpn⟩ := hany
      exact List.mem_map.mpr ⟨p, hp, hpn⟩
    have heq : (s.map (fun p => if p.1 = name then (name, dt) else p)).map
        Prod.fst = s.map Prod.fst := by
      rw [List.map_map]
      apply List.map_congr_left
      intro p _
      by_cases h : p.1 = name <;> simp [h]
    rw [heq]
    constructor
    · exact .inr
    · rintro (rfl | h)
      · exact hname
      · exact h
  · simp [or_comm]

theorem schemaInsert_mem (s : SchemaL) (name : String) (dt : DataType)
    (q : String × DataType) (hq : q ∈ schemaInsert s name dt) :
    q = (name, dt) ∨ q ∈ s := by
  unfold schemaInsert at hq
  split at hq
  · obtain ⟨p, hp, hpq⟩ := List.mem_map.mp hq
    by_cases h : p.1 = name
    · rw [if_pos h] at hpq
      exact .inl hpq.symm
    · rw [if_neg h] at hpq
      exact .inr (hpq ▸ hp)
  · rcases List.mem_append.mp hq with h | h
    · exact .inr h
    · left
      simpa using h

theorem buildSchemaEntries_err (raw : List (String × String)) :
    ∀ acc : SchemaL, (∃ p ∈ raw, DT_CONV_MAP p.2 = none) →
      ∃ n a, buildSchemaEntries raw acc = .error (.panicUnknownAlias n a) ∧
        (n, a) ∈ raw ∧ DT_CONV_MAP a = none := by
  induction raw with
  | nil =>
    intro acc h
    obtain ⟨p, hp, -⟩ := h
    simp at hp
  | cons hd tl ih =>
    intro acc h
    obtain ⟨n0, a0⟩ := hd
    cases hdt : DT_CONV_MAP a0 with
    | none =>
      exact ⟨n0, a0, by simp [buildSchemaEntries, hdt], by simp, hdt⟩
    | some dt0 =>
      obtain ⟨p, hp, hpnone⟩ := h
      have hptl : p ∈ tl := by
        rcases List.mem_cons.mp hp with rfl | h2
        · rw [hdt] at hpnone
          cases hpnone
        · exact h2
      obtain ⟨n, a, hb, hmem, hnone⟩ :=
        ih (schemaInsert acc n0 dt0) ⟨p, hptl, hpnone⟩
      refine ⟨n, a, ?_, by simp [hmem], hnone⟩
      simp only [buildSchemaEntries, hdt]
      exact hb

theorem buildSchemaEntries_ok (raw : List (String × String)) :
    ∀ acc : SchemaL, (∀ p ∈ raw, (DT_CONV_MAP p.2).isSome) →
      ∃ s, buildSchemaEntries raw acc = .ok s ∧
        (∀ n : String, n ∈ s.map Prod.fst ↔
          n ∈ acc.map Prod.fst ∨ n ∈ raw.map Prod.fst) ∧
        (∀ q ∈ s, q ∈ acc ∨
          ∃ a : String, (q.1, a) ∈ raw ∧ DT_CONV_MAP a = some q.2) := by
  induction raw with
  | nil =>
    intro acc _
    exact ⟨acc, rfl, by simp, fun q hq => .inl hq⟩
  | cons hd tl ih =>
    intro acc hres
    obtain ⟨n0, a0⟩ := hd
    obtain ⟨dt0, hdt0⟩ := Option.isSome_iff_exists.mp (hres (n0, a0) (by simp))
    obtain ⟨s, hbuild, hnames, hfrom⟩ :=
      ih (schemaInsert acc n0 dt0) (fun p hp => hres p (by simp [hp]))
    refine ⟨s, ?_, ?_, ?_⟩
    · simp only [buildSchemaEntries, hdt0]
      exact hbuild
    · intro n
      rw [hnames n, schemaInsert_mem_names]
      simp only [List.map_cons, List.mem_cons]
      tauto
    · intro q hq
      rcases hfrom q hq with hacc | ⟨a, ha, hdta⟩
      · rcases schemaInsert_mem acc n0 dt0 q hacc with rfl | hmem
        · exact .inr ⟨a0, by simp, hdt0⟩
        · exact .inl hmem
      · exact .inr ⟨a, by simp [ha], hdta⟩

theorem buildSchemaEntries_nodup (raw : List (String × String)) :
    ∀ acc : SchemaL, (∀ p ∈ raw, (DT_CONV_MAP p.2).isSome) →
      (raw.map Prod.fst).Nodup →
      (∀ p ∈ raw, p.1 ∉ acc.map Prod.fst) →
      ∃ r, buildSchemaEntries raw acc = .ok (acc ++ r) ∧
        List.Forall₂ (fun (p : String × String) (q : String × DataType) =>
          q.1 = p.1 ∧ DT_CONV_MAP p.2 = some q.2) raw r := by
  induction raw with
  | nil =>
    intro acc _ _ _
    exact ⟨[], by simp [buildSchemaEntries], .nil⟩
  | cons hd tl ih =>
    intro acc hres hnodup hdisj
    obtain ⟨n0, a0⟩ := hd
    obtain ⟨dt0, hdt0⟩ := Option.isSome_iff_exists.mp (hres (n0, a0) (by simp))
    have hins : schemaInsert acc n0 dt0 = acc ++ [(n0, dt0)] := by
      unfold schemaInsert
      rw [if_neg ?_]
      intro hany
      simp only [List.any_eq_true, decide_eq_true_eq] at hany
      obtain ⟨p, hp, hpn⟩ := hany
      exact hdisj (n0, a0) (by simp) (List.mem_map.mpr ⟨p, hp, hpn⟩)
    simp only [List.map_cons, List.nodup_cons] at hnodup
    obtain ⟨r, hb, hrel⟩ := ih (acc ++ [(n0, dt0)])
      (fun p hp => hres p (by simp [hp]))
      hnodup.2
      (by
        intro p hp
        simp only [List.map_append, List.mem_append]
        rintro (hmem | hmem)
        · exact hdisj p (by simp [hp]) hmem
        · simp only [List.map_cons, List.map_nil, List.mem_cons,
            List.not_mem_nil, or_false] at hmem
          exact hnodup.1 (hmem ▸ List.mem_map.mpr ⟨p, hp, rfl⟩))
    refine ⟨(n0, dt0) :: r, ?_, .cons ⟨rfl, hdt0⟩ hrel⟩
    simp only [buildSchemaEntries, hdt0, hins]
    rw [hb, List.append_assoc]
    rfl

/-- Claim C5: The schema builder fails with the empty-schema error on the
empty input; on any input containing an alias the resolver does not know
it aborts with the modelled unknown-alias failure (the Rust `.unwrap()`
panic, a hard failure — never a partial result); and on a non-empty
input whose aliases all resolve it succeeds with a schema in which every
input pair's name appears and every entry's dtype was resolved from one
of that name's aliases in the input. -/
theorem schema_builder_all_or_nothing (raw : List (String × String)) :
    (buildSchema [] = .error .emptySchema) ∧
    ((∃ p ∈ raw, DT_CONV_MAP p.2 = none) →
      ∃ n a, buildSchema raw = .error (.panicUnknownAlias n a) ∧
        (n, a) ∈ raw ∧ DT_CONV_MAP a = none) ∧
    (raw ≠ [] → (∀ p ∈ raw, (DT_CONV_MAP p.2).isSome) →
      ∃ s, buildSchema raw = .ok s ∧
        (∀ p ∈ raw, p.1 ∈ s.map Prod.fst) ∧
        (∀ q ∈ s, ∃ a : String, (q.1, a) ∈ raw ∧ DT_CONV_MAP a = some q.2)) := by
  refine ⟨rfl, ?_, ?_⟩
  · intro h
    have hne : raw ≠ [] := by
      rintro rfl
      obtain ⟨p, hp, -⟩ := h
      simp at hp
    obtain ⟨n, a, hb, hmem, hnone⟩ := buildSchemaEntries_err raw [] h
    refine ⟨n, a, ?_, hmem, hnone⟩
    rw [buildSchema, if_neg (by simpa using hne)]
    exact hb
  · intro hne hres
    obtain ⟨s, hb, hnames, hfrom⟩ := buildSchemaEntries_ok raw [] hres
    refine ⟨s, ?_, ?_, ?_⟩
    · rw [buildSchema, if_neg (by simpa using hne)]
      exact hb
    · intro p hp
      exact (hnames p.1).mpr (.inr (List.mem_map.mpr ⟨p, hp, rfl⟩))
    · intro q hq
      rcases hfrom q hq with h | h
      · simp at h
      · exact h

/-- Claim C5, witness: The error case discharged at
`[("A", u32), ("B", wat)]` (where `wat` is no known alias) and the
success case at `[("A", u32)]`. -/
theorem schema_builder_all_or_nothing_witness :
    (∃ n a, buildSchema [("A", "u32"), ("B", "wat")] =
        .error (.panicUnknownAlias n a) ∧
      (n, a) ∈ [("A", "u32"), ("B", "wat")] ∧ DT_CONV_MAP a = none) ∧
    (∃ s, buildSchema [("A", "u32")] = .ok s ∧
      (∀ p ∈ [("A", "u32")], p.1 ∈ s.map Prod.fst) ∧
      (∀ q ∈ s, ∃ a : String, (q.1, a) ∈ [("A", "u32")] ∧
        DT_CONV_MAP a = some q.2)) :=
  ⟨(schema_builder_all_or_nothing [("A", "u32"), ("B", "wat")]).2.1
      ⟨("B", "wat"), by decide, rfl⟩,
    (schema_builder_all_or_nothing [("A", "u32")]).2.2 (by decide) (by decide)⟩

/-! ## Frame-assembly lemmas -/

theorem zip_filterMap_name_dtype (sc : SchemaL) :
    ∀ cols : List (List AnyValue), cols.length = sc.length →
      ((sc.zip cols).filterMap (fun pc =>
          if pc.1.2 = DataType.Null then none
          else some (⟨pc.1.1, pc.1.2, pc.2⟩ : Column))).map
        (fun col => (col.name, col.dtype)) =
        sc.filter (fun p => decide (p.2 ≠ DataType.Null)) := by
  induction sc with
  | nil =>
    intro cols _
    simp
  | cons p ps ih =>
    intro cols h
    cases cols with
    | nil => simp at h
    | cons cb cbs =>
      simp only [List.zip_cons_cons, List.filterMap_cons, List.filter_cons]
      by_cases hp : p.2 = DataType.Null <;>
        simp [hp, ih cbs (by simpa using h)]

theorem txtSelectedColumns_eq_filter (sc : SchemaL) :
    txtSelectedColumns sc =
      (sc.filter (fun p => decide (p.2 ≠ DataType.Null))).map Prod.fst := by
  induction sc with
  | nil => rfl
  | cons p ps ih =>
    simp only [txtSelectedColumns] at ih ⊢
    simp only [List.filterMap_cons, List.filter_cons]
    by_cases hp : p.2 = DataType.Null <;> simp [hp, ih]

/-- Claim C9: Columns declared Ignored are entirely absent from the
assembled frame — no output column has the Ignored dtype — and the
output's (name, dtype) sequence is exactly the schema's order with the
ignored entries removed; the delimited-text reader's final projection
selects exactly the non-ignored schema names in the same way. -/
theorem frame_omits_ignored_columns_in_order (schema : SchemaL)
    (columns : List (List AnyValue)) (hlen : columns.length = schema.length) :
    ((assembleFrame schema columns).columns.map
        (fun col => (col.name, col.dtype)) =
      schema.filter (fun p => decide (p.2 ≠ DataType.Null))) ∧
    (∀ col ∈ (assembleFrame schema columns).columns,
      col.dtype ≠ DataType.Null) ∧
    txtSelectedColumns schema =
      (schema.filter (fun p => decide (p.2 ≠ DataType.Null))).map Prod.fst := by
  refine ⟨zip_filterMap_name_dtype schema columns hlen, ?_,
    txtSelectedColumns_eq_filter schema⟩
  intro col hcol
  simp only [assembleFrame, List.mem_filterMap] at hcol
  obtain ⟨pc, _, heq⟩ := hcol
  by_cases hp : pc.1.2 = DataType.Null
  · rw [if_pos hp] at heq
    cases heq
  · rw [if_neg hp] at heq
    injection heq with h1
    rw [← h1]
    exact hp

/-- Claim C9, witness: The three-column schema `[(a, u8), (b, Ignored),
(c, str)]` assembles to exactly two columns, `a` then `c`, with their
declared dtypes, and the text reader's projection keeps `[a, c]`. -/
theorem frame_omits_ignored_columns_witness :
    (assembleFrame [("a", .UInt8), ("b", .Null), ("c", .String)]
        [[], [], []]).columns.map (fun col => (col.name, col.dtype)) =
      [("a", DataType.UInt8), ("c", DataType.String)] ∧
    txtSelectedColumns [("a", .UInt8), ("b", .Null), ("c", .String)] =
      ["a", "c"] := by
  have h := frame_omits_ignored_columns_in_order
    [("a", .UInt8), ("b", .Null), ("c", .String)] [[], [], []] rfl
  refine ⟨?_, ?_⟩
  · rw [h.1]
    rfl
  · rw [h.2.2]
    rfl

/-- Claim C10, counterexample: The input `[("A", u32), ("A", str)]` has
two pairs, both resolvable, but the built schema has a single entry:
polars `Schema::insert` updates the existing name in place, so "exactly
one entry per input pair" fails when two pairs carry the same name. -/
theorem schema_duplicate_name_collapses :
    buildSchema [("A", "u32"), ("A", "str")] = .ok [("A", DataType.String)] ∧
    ([("A", DataType.String)] : SchemaL).length ≠
      [("A", "u32"), ("A", "str")].length :=
  ⟨rfl, by decide⟩

/-- Claim C10, amended: For every non-empty input list of (column name,
alias) pairs whose aliases all resolve and whose column names are
pairwise distinct, the built schema contains exactly one entry per input
pair, in input order, each entry carrying its pair's name and resolved
type; when two pairs share a name they collapse into a single entry
(kept at the first occurrence's position, with the last occurrence's
type), as the counterexample shows. -/
theorem schema_builder_distinct_names (raw : List (String × String))
    (hne : raw ≠ []) (hres : ∀ p ∈ raw, (DT_CONV_MAP p.2).isSome)
    (hnodup : (raw.map Prod.fst).Nodup) :
    ∃ s, buildSchema raw = .ok s ∧
      List.Forall₂ (fun (p : String × String) (q : String × DataType) =>
        q.1 = p.1 ∧ DT_CONV_MAP p.2 = some q.2) raw s := by
  obtain ⟨r, hb, hrel⟩ := buildSchemaEntries_nodup raw [] hres hnodup (by simp)
  refine ⟨r, ?_, hrel⟩
  rw [buildSchema, if_neg (by simpa using hne)]
  simpa using hb

/-- Claim C10, amended, witness: The distinct-name input
`[("A", u32), ("B", str)]` builds a schema with one entry per pair, in
order. -/
theorem schema_builder_distinct_names_witness :
    ∃ s, buildSchema [("A", "u32"), ("B", "str")] = .ok s ∧
      List.Forall₂ (fun (p : String × String) (q : String × DataType) =>
        q.1 = p.1 ∧ DT_CONV_MAP p.2 = some q.2) [("A", "u32"), ("B", "str")] s :=
  schema_builder_distinct_names [("A", "u32"), ("B", "str")]
    (by decide) (by decide) (by decide)

/-- Claim C1: (Claim: the cell-range read of the 2×2 block with schema
`[(A, u32), (B, str)]` succeeds with `A = [1, 2]`, `B = ["x", "y"]`.)
What the code does at exactly that input: the columns vector is created
by `Vec::with_capacity(schema.len())`, whose length is 0, so the first
non-ignored cell's `columns[column]` access is out of bounds and the
read aborts with the modelled index panic instead of producing a frame. -/
theorem cellRangeRead_2x2_panics_index :
    sheetRangeRead [("A", "u32"), ("B", "str")]
      [[.Int 1, .String "x"], [.Int 2, .String "y"]] = .error .panicIndex :=
  rfl

/-- Claim C2: (Claim: for the named-table and cell-range readers the index
`k mod N` into the columns vector is always in bounds, so a source with
at least one non-ignored cell never fails on buffer indexing.) What the
code does: the columns vector has length 0 — only its capacity is
`schema.len()` — so the very first non-ignored cell makes `columns[k mod N]`
panic, for both readers; the code's own safety comment asserts the
access is guaranteed, which the initialization contradicts. -/
theorem table_and_range_buffer_indexing_panics :
    tableRead [("A", "u32")] [[.Int 7]] = .error .panicIndex ∧
    sheetRangeRead [("B", "Bool")] [[.Bool true]] = .error .panicIndex :=
  ⟨rfl, rfl⟩

end QaRead
